import Mathlib

/-! JSON value classes and their serializer (`examples/json_classes.hh`).

A shallow embedding of the six `json_base` node classes, of `json_escape`, and of the
`stream` members together with the two `operator<<` overloads.

Modelling decisions.

* A `std::string` is the list of its bytes; a byte is a `Fin 256` (the object
  representation of one `char`, `CHAR_BIT = 8`).
* Whether plain `char` is signed is implementation defined.  Every function that looks at
  the value of a `char` takes the flag `char_signed`; `char_value` gives the value of the
  `char` holding a byte, as a mathematical integer.
* `c & 0xf0` and `c & 0x0f` are computed after integral promotion of `c` to a 32-bit `int`:
  `int_bits` is the two's complement bit pattern of the promoted value.
* The sink `ostream` is a `std::ostream` whose field width is 0, as in the default
  formatting state: it is the list of the bytes written so far, and every inserter appends
  its text unpadded and leaves the width at 0.  The sink `formatted_ostream` carries the
  field width, the fill character and the adjustment as well: there an inserter pads its
  text to the width and resets the width.  The two agree at width 0
  (`stream_formatted_width_zero`).  Sink failures are not modelled.
* `double` is a type parameter and `fmt` is the text `operator<<(std::ostream &, double)`
  writes for a payload at field width 0; on a `formatted_ostream`, `put_double w` is that
  text under the field width `w`.  Precision, float format and locale are settings of the
  sink that no inserter changes.
* A `std::shared_ptr< json_base >` is an `Option`: `none` is the null pointer.
* A `std::multimap` is the list of its entries in iteration order (`begin()` to `end()`).
-/

namespace examples

/-! ## Strings and characters -/

/-- One byte of a `std::string`. -/
abbrev char := Fin 256

/-- The bytes of a `std::string`. -/
abbrev std_string := List char

/-- The bytes of an ASCII string or character literal of the source. -/
def lit (s : String) : std_string := s.toList.map (fun c => Fin.ofNat c.toNat)

/-- The value of the `char` that holds byte `b`: `b - 256` for the bytes `0x80..0xFF`
when `char` is signed, `b` otherwise. -/
def char_value (char_signed : Bool) (b : char) : Int :=
  if char_signed && decide (128 ≤ b.val) then (b.val : Int) - 256 else (b.val : Int)

/-- The bytes written so far to a `std::ostream` whose field width is 0. -/
abbrev ostream := List char

/-! ## `json_escape` (lines 123-140) -/

/-- The table `static const char * h = "0123456789abcdef"`. -/
def h : std_string := lit "0123456789abcdef"

/-- The 32-bit two's complement bit pattern of an `int`. -/
def int_bits (c : Int) : Nat := (c % 4294967296).toNat

/-- The index `( c & 0xf0 ) >> 4` of line 132. -/
def hi_index (c : Int) : Nat := (int_bits c &&& 0xf0) >>> 4

/-- The index `c & 0x0f` of line 133. -/
def lo_index (c : Int) : Nat := int_bits c &&& 0x0f

/-- One iteration of the loop of `json_escape` (lines 130-137): `r` is the result so far and
`b` the byte of the current `char`. -/
def json_escape_char (char_signed : Bool) (r : std_string) (b : char) : std_string :=
  let c := char_value char_signed b
  if c < 32 ∨ c = 127 then
    ((r ++ lit "\\u00") ++ [h.getD (hi_index c) 0]) ++ [h.getD (lo_index c) 0]
  else
    r ++ [b]

/-- The function `json_escape`: the loop over `data`, starting from the empty `r`. -/
def json_escape (char_signed : Bool) (data : std_string) : std_string :=
  data.foldl (json_escape_char char_signed) []

/-! ## The node classes (lines 15-180) -/

/-- The enumeration `json_type`. -/
inductive json_type where
  | ARRAY
  | BOOLEAN
  | NULL_
  | NUMBER
  | OBJECT
  | STRING
  deriving DecidableEq, Repr

/-- The six classes derived from `json_base`, each with its `data` member. -/
inductive json_base (double : Type) where
  | array_json (data : List (Option (json_base double)))
  | boolean_json (data : Bool)
  | null_json
  | number_json (data : double)
  | string_json (data : std_string)
  | object_json (data : List (std_string × Option (json_base double)))

/-- The member `type`, as set by the constructor of each class. -/
def json_base.type {double : Type} : json_base double → json_type
  | .array_json _ => json_type.ARRAY
  | .boolean_json _ => json_type.BOOLEAN
  | .null_json => json_type.NULL_
  | .number_json _ => json_type.NUMBER
  | .string_json _ => json_type.STRING
  | .object_json _ => json_type.OBJECT

mutual
/-- The virtual member `stream` of the six classes. -/
def json_base.stream {double : Type} (char_signed : Bool) (fmt : double → std_string) :
    json_base double → ostream → ostream
  | .array_json data, o =>
    let o := o ++ lit "["
    let o := match data with
      | [] => o
      | x :: rest => array_loop char_signed fmt rest (operator_shl_ptr char_signed fmt o x)
    o ++ lit "]"
  | .boolean_json data, o => o ++ (if data then lit "true" else lit "false")
  | .null_json, o => o ++ lit "null"
  | .number_json data, o => o ++ fmt data
  | .string_json data, o => (o ++ lit "\"" ++ json_escape char_signed data) ++ lit "\""
  | .object_json data, o =>
    let o := o ++ lit "\x7b"
    let o := match data with
      | [] => o
      | (k, v) :: rest =>
        object_loop char_signed fmt rest
          (operator_shl_ptr char_signed fmt
            ((o ++ lit "\"" ++ json_escape char_signed k) ++ lit "\":") v)
    o ++ lit "\x7d"
/-- The overload `operator<<( std::ostream &, const std::shared_ptr< json_base > & )`
(lines 48-51).  For a non-null pointer, `o << * j` is the overload for `const json_base &`,
whose body `j.stream( o )` stands here in its place. -/
def operator_shl_ptr {double : Type} (char_signed : Bool) (fmt : double → std_string) :
    ostream → Option (json_base double) → ostream
  | o, some j => json_base.stream char_signed fmt j o
  | o, none => o ++ lit "[nullptr]"
/-- The loop `while ( ++iter != data.end() )` of `array_json::stream` (lines 68-70), over
the elements that remain. -/
def array_loop {double : Type} (char_signed : Bool) (fmt : double → std_string) :
    List (Option (json_base double)) → ostream → ostream
  | [], o => o
  | x :: rest, o =>
    array_loop char_signed fmt rest (operator_shl_ptr char_signed fmt (o ++ lit ",") x)
/-- The loop `while ( ++iter != data.end() )` of `object_json::stream` (lines 174-176), over
the entries that remain. -/
def object_loop {double : Type} (char_signed : Bool) (fmt : double → std_string) :
    List (std_string × Option (json_base double)) → ostream → ostream
  | [], o => o
  | (k, v) :: rest, o =>
    object_loop char_signed fmt rest
      (operator_shl_ptr char_signed fmt
        ((o ++ lit ",\"" ++ json_escape char_signed k) ++ lit "\":") v)
end

/-- The overload `operator<<( std::ostream &, const json_base & )` (lines 42-46). -/
def operator_shl {double : Type} (char_signed : Bool) (fmt : double → std_string)
    (o : ostream) (j : json_base double) : ostream :=
  json_base.stream char_signed fmt j o

/-! ## The sink with its formatting state -/

/-- A `std::ostream` with the part of its formatting state that the inserters used by the
stream members read or change: the bytes written so far, the field width `width()`, the fill
character `fill()`, and whether `flags() & adjustfield` is `left`.  The sink `ostream` above
is this sink with the field width 0, which no inserter changes. -/
structure formatted_ostream where
  bytes : std_string
  width : Nat
  fill : char
  left : Bool

/-- The inserters `operator<<` for a `char`, a C string and a `std::string`: the text is
padded with the fill character up to the field width, after the text when the adjustment is
`left` and before it otherwise, and then `width( 0 )` is called. -/
def formatted_ostream.insert (o : formatted_ostream) (seq : std_string) : formatted_ostream :=
  formatted_ostream.mk
    (o.bytes ++
      (if o.left then seq ++ List.replicate (o.width - seq.length) o.fill
       else List.replicate (o.width - seq.length) o.fill ++ seq))
    0 o.fill o.left

/-- The inserter `operator<<` for a `double`: `put_double w d` is the text written for the
payload `d` under the field width `w` (and under the settings of the sink that no inserter
changes); then `width( 0 )` is called. -/
def formatted_ostream.insert_double {double : Type} (put_double : Nat → double → std_string)
    (o : formatted_ostream) (d : double) : formatted_ostream :=
  formatted_ostream.mk (o.bytes ++ put_double o.width d) 0 o.fill o.left

mutual
/-- The virtual member `stream` of the six classes, on a sink with its formatting state. -/
def json_base.stream_formatted {double : Type} (char_signed : Bool)
    (put_double : Nat → double → std_string) :
    json_base double → formatted_ostream → formatted_ostream
  | .array_json data, o =>
    let o := o.insert (lit "[")
    let o := match data with
      | [] => o
      | x :: rest =>
        array_loop_formatted char_signed put_double rest
          (operator_shl_ptr_formatted char_signed put_double o x)
    o.insert (lit "]")
  | .boolean_json data, o => o.insert (if data then lit "true" else lit "false")
  | .null_json, o => o.insert (lit "null")
  | .number_json data, o => o.insert_double put_double data
  | .string_json data, o =>
    ((o.insert (lit "\"")).insert (json_escape char_signed data)).insert (lit "\"")
  | .object_json data, o =>
    let o := o.insert (lit "\x7b")
    let o := match data with
      | [] => o
      | (k, v) :: rest =>
        object_loop_formatted char_signed put_double rest
          (operator_shl_ptr_formatted char_signed put_double
            (((o.insert (lit "\"")).insert (json_escape char_signed k)).insert (lit "\":")) v)
    o.insert (lit "\x7d")
/-- The overload of `operator<<` for a `std::shared_ptr< json_base >` (lines 48-51), on a
sink with its formatting state. -/
def operator_shl_ptr_formatted {double : Type} (char_signed : Bool)
    (put_double : Nat → double → std_string) :
    formatted_ostream → Option (json_base double) → formatted_ostream
  | o, some j => json_base.stream_formatted char_signed put_double j o
  | o, none => o.insert (lit "[nullptr]")
/-- The loop of `array_json::stream` (lines 68-70), on a sink with its formatting state. -/
def array_loop_formatted {double : Type} (char_signed : Bool)
    (put_double : Nat → double → std_string) :
    List (Option (json_base double)) → formatted_ostream → formatted_ostream
  | [], o => o
  | x :: rest, o =>
    array_loop_formatted char_signed put_double rest
      (operator_shl_ptr_formatted char_signed put_double (o.insert (lit ",")) x)
/-- The loop of `object_json::stream` (lines 174-176), on a sink with its formatting
state. -/
def object_loop_formatted {double : Type} (char_signed : Bool)
    (put_double : Nat → double → std_string) :
    List (std_string × Option (json_base double)) → formatted_ostream → formatted_ostream
  | [], o => o
  | (k, v) :: rest, o =>
    object_loop_formatted char_signed put_double rest
      (operator_shl_ptr_formatted char_signed put_double
        (((o.insert (lit ",\"")).insert (json_escape char_signed k)).insert (lit "\":")) v)
end

/-! ## The member container of `object_json` -/

/-- The comparison `std::less< std::string >`: lexicographic on the bytes, a proper prefix
first. -/
def string_less : std_string → std_string → Bool
  | [], [] => false
  | [], _ :: _ => true
  | _ :: _, [] => false
  | a :: as, b :: bs => if a < b then true else if b < a then false else string_less as bs

/-- Modelled from the spec: the builder operation `insert(ObjectHandle, key, Value)`, whose
code is not in the source file.  It is `std::multimap::insert` on the member `data`: the new
entry goes after every entry whose key is not greater than its key, so after the entries
with an equal key. -/
def multimap_insert {V : Type} : List (std_string × V) → std_string × V → List (std_string × V)
  | [], e => [e]
  | x :: rest, e =>
    if string_less e.1 x.1 then e :: x :: rest else x :: multimap_insert rest e

/-- Modelled from the spec: the member `data` of an object built by `make_object()` followed
by the insertions `ins`, in that order. -/
def multimap_of_insertions {V : Type} (ins : List (std_string × V)) : List (std_string × V) :=
  ins.foldl multimap_insert []

/-! ## Reference definitions -/

/-- The lowercase hexadecimal digit of a nibble, as a character. -/
def hex_digit (n : Nat) : char :=
  if n < 10 then Fin.ofNat (48 + n) else Fin.ofNat (97 + (n - 10))

/-- The text of one object member: the quoted escaped key, a colon, the text of the value. -/
def member_text {double : Type} (char_signed : Bool) (fmt : double → std_string)
    (e : std_string × Option (json_base double)) : std_string :=
  lit "\"" ++ json_escape char_signed e.1 ++ lit "\":" ++ operator_shl_ptr char_signed fmt [] e.2

/-- Whether a byte is an ASCII hexadecimal digit. -/
def is_hex_digit (c : char) : Bool :=
  (48 ≤ c.val && c.val ≤ 57) || (65 ≤ c.val && c.val ≤ 70) || (97 ≤ c.val && c.val ≤ 102)

/-- The scanner states for the inside of a JSON string literal. -/
inductive scan_state where
  | plain
  | escape
  | hex (remaining : Nat)
  deriving DecidableEq, Repr

/-- Whether the bytes `s`, read from state `st`, are the inside of one well-formed JSON
string literal (RFC 8259, section 7): no byte below `0x20`, no double quote outside an
escape, and every backslash followed by one of the eight one-character escapes or by `u` and
four hexadecimal digits. -/
def json_string_body_from : scan_state → std_string → Bool
  | .plain, [] => true
  | _, [] => false
  | .plain, c :: rest =>
    if c.val < 0x20 then false
    else if c.val = 0x22 then false
    else if c.val = 0x5c then json_string_body_from .escape rest
    else json_string_body_from .plain rest
  | .escape, c :: rest =>
    if c ∈ lit "\"\\/bfnrt" then json_string_body_from .plain rest
    else if c.val = 0x75 then json_string_body_from (.hex 3) rest
    else false
  | .hex n, c :: rest =>
    if is_hex_digit c then
      json_string_body_from (match n with | 0 => .plain | k + 1 => .hex k) rest
    else false

/-- Whether `s` is the inside of one well-formed JSON string literal. -/
def json_string_body_ok (s : std_string) : Bool := json_string_body_from .plain s

/-! ## Lemmas on `json_escape` -/

theorem json_escape_char_acc (char_signed : Bool) (r : std_string) (b : char) :
    json_escape_char char_signed r b = r ++ json_escape_char char_signed [] b := by
  unfold json_escape_char
  by_cases hc : char_value char_signed b < 32 ∨ char_value char_signed b = 127
  · simp [hc]
  · simp [hc]

theorem foldl_json_escape_char (char_signed : Bool) (data : std_string) :
    ∀ r : std_string, data.foldl (json_escape_char char_signed) r
      = r ++ data.foldl (json_escape_char char_signed) [] := by
  induction data with
  | nil => intro r; simp
  | cons b t ih =>
    intro r
    rw [List.foldl_cons, List.foldl_cons, ih (json_escape_char char_signed r b),
      ih (json_escape_char char_signed [] b), json_escape_char_acc char_signed r b,
      List.append_assoc]

theorem json_escape_nil (char_signed : Bool) : json_escape char_signed [] = [] := rfl

theorem json_escape_cons (char_signed : Bool) (b : char) (t : std_string) :
    json_escape char_signed (b :: t)
      = json_escape_char char_signed [] b ++ json_escape char_signed t := by
  unfold json_escape
  rw [List.foldl_cons, foldl_json_escape_char]

theorem json_escape_append (char_signed : Bool) (a b : std_string) :
    json_escape char_signed (a ++ b) = json_escape char_signed a ++ json_escape char_signed b := by
  unfold json_escape
  rw [List.foldl_append, foldl_json_escape_char]

set_option maxRecDepth 100000 in
/-- A byte from `0x20` to `0x7E` is copied whatever the signedness of `char`, and a byte from
`0x80` to `0xFF` is copied when `char` is unsigned. -/
theorem json_escape_char_copies :
    ∀ (char_signed : Bool) (u : char), 0x20 ≤ u.val → u.val ≠ 0x7F →
      (char_signed = false ∨ u.val < 0x80) → json_escape char_signed [u] = [u] := by
  decide

set_option maxRecDepth 100000 in
/-- Where `char` is signed, every byte from `0x80` to `0xFF` is a negative `char`, below 32,
and is replaced by six characters. -/
theorem json_escape_char_signed_high :
    ∀ u : char, 0x80 ≤ u.val →
      json_escape true [u] = lit "\\u00" ++ [hex_digit (u.val / 16), hex_digit (u.val % 16)] := by
  decide

/-! ## Claims on `json_escape` -/

set_option maxRecDepth 100000 in
/-- C1: for every byte `u` in `[0x00, 0x1F]` or equal to `0x7F`, and whatever the signedness
of `char`, `json_escape` of the one-byte string `u` is the six characters backslash, `u`,
`0`, `0`, then the lowercase hexadecimal digit of the high nibble of `u` and that of its low
nibble; so `0x0A` gives `\u000a`, `0x7F` gives `\u007f` and `0x1F` gives `\u001f`. -/
theorem json_escape_control_byte (char_signed : Bool) (u : char)
    (hu : u.val ≤ 0x1F ∨ u.val = 0x7F) :
    json_escape char_signed [u]
        = lit "\\u00" ++ [hex_digit (u.val / 16), hex_digit (u.val % 16)]
      ∧ (json_escape char_signed [u]).length = 6
      ∧ json_escape char_signed [0x0A] = lit "\\u000a"
      ∧ json_escape char_signed [0x7F] = lit "\\u007f"
      ∧ json_escape char_signed [0x1F] = lit "\\u001f" := by
  revert char_signed u
  decide

theorem json_escape_control_byte_witness :
    ((0x0A : char).val ≤ 0x1F ∨ (0x0A : char).val = 0x7F)
      ∧ json_escape true [0x0A]
          = lit "\\u00" ++ [hex_digit ((0x0A : char).val / 16), hex_digit ((0x0A : char).val % 16)] :=
  ⟨by decide, (json_escape_control_byte true 0x0A (by decide)).1⟩

/-- C2: where `char` is signed, the byte `0xC3` (the first byte of the UTF-8 encoding of
U+00E9) is the `char` of value -61, which is below 32: `json_escape` writes the six
characters `Ã` for it and not the byte itself, and the two-byte UTF-8 sequence
`0xC3 0xA9` comes out as the twelve characters `Ã©`. -/
theorem json_escape_signed_utf8_byte :
    char_value true 0xC3 = -61
      ∧ json_escape true [0xC3] = lit "\\u00c3"
      ∧ json_escape true [0xC3] ≠ [0xC3]
      ∧ json_escape true [0xC3, 0xA9] = lit "\\u00c3\\u00a9"
      ∧ json_escape false [0xC3, 0xA9] = [0xC3, 0xA9] := by
  decide

/-! ## Lemmas on the `stream` members -/

section stream_lemmas
variable {double : Type} (char_signed : Bool) (fmt : double → std_string)

mutual
theorem stream_append :
    ∀ (j : json_base double) (o : ostream),
      json_base.stream char_signed fmt j o = o ++ json_base.stream char_signed fmt j []
  | .array_json [], o => by simp [json_base.stream]
  | .array_json (x :: rest), o => by
    have h1 := array_loop_append rest
    have h2 := operator_shl_ptr_append x
    simp only [json_base.stream]
    rw [h1, h2, h1 (operator_shl_ptr char_signed fmt ([] ++ lit "[") x), h2 ([] ++ lit "[")]
    simp [List.append_assoc]
  | .boolean_json b, o => by simp [json_base.stream]
  | .null_json, o => by simp [json_base.stream]
  | .number_json d, o => by simp [json_base.stream]
  | .string_json s, o => by simp [json_base.stream]
  | .object_json [], o => by simp [json_base.stream]
  | .object_json ((k, v) :: rest), o => by
    have h1 := object_loop_append rest
    have h2 := operator_shl_ptr_append v
    simp only [json_base.stream]
    rw [h1, h2,
      h1 (operator_shl_ptr char_signed fmt
        (([] ++ lit "\x7b" ++ lit "\"" ++ json_escape char_signed k) ++ lit "\":") v),
      h2 (([] ++ lit "\x7b" ++ lit "\"" ++ json_escape char_signed k) ++ lit "\":")]
    simp [List.append_assoc]
theorem operator_shl_ptr_append :
    ∀ (p : Option (json_base double)) (o : ostream),
      operator_shl_ptr char_signed fmt o p = o ++ operator_shl_ptr char_signed fmt [] p
  | none, o => by simp [operator_shl_ptr]
  | some j, o => by
    simp only [operator_shl_ptr]
    exact stream_append j o
theorem array_loop_append :
    ∀ (l : List (Option (json_base double))) (o : ostream),
      array_loop char_signed fmt l o = o ++ array_loop char_signed fmt l []
  | [], o => by simp [array_loop]
  | x :: rest, o => by
    have h1 := array_loop_append rest
    have h2 := operator_shl_ptr_append x
    simp only [array_loop]
    rw [h1, h2, h1 (operator_shl_ptr char_signed fmt ([] ++ lit ",") x), h2 ([] ++ lit ",")]
    simp [List.append_assoc]
theorem object_loop_append :
    ∀ (l : List (std_string × Option (json_base double))) (o : ostream),
      object_loop char_signed fmt l o = o ++ object_loop char_signed fmt l []
  | [], o => by simp [object_loop]
  | (k, v) :: rest, o => by
    have h1 := object_loop_append rest
    have h2 := operator_shl_ptr_append v
    simp only [object_loop]
    rw [h1, h2,
      h1 (operator_shl_ptr char_signed fmt
        (([] ++ lit ",\"" ++ json_escape char_signed k) ++ lit "\":") v),
      h2 (([] ++ lit ",\"" ++ json_escape char_signed k) ++ lit "\":")]
    simp [List.append_assoc]
end

end stream_lemmas

/-- Joining with a separator: the first text, then each later text after one separator. -/
theorem intercalate_cons_eq {α : Type} (sep x : List α) (rest : List (List α)) :
    List.intercalate sep (x :: rest) = x ++ (rest.map (fun y => sep ++ y)).flatten := by
  induction rest generalizing x with
  | nil => simp [List.intercalate]
  | cons y ys ih =>
    have h2 := ih y
    simp only [List.intercalate, List.intersperse, List.map, List.flatten_cons] at h2 ⊢
    rw [h2, List.append_assoc]

theorem lit_comma_quote : lit ",\"" = lit "," ++ lit "\"" := rfl

section stream_text
variable {double : Type} (char_signed : Bool) (fmt : double → std_string)

theorem array_loop_text (l : List (Option (json_base double))) :
    array_loop char_signed fmt l []
      = (l.map (fun x => lit "," ++ operator_shl_ptr char_signed fmt [] x)).flatten := by
  induction l with
  | nil => simp [array_loop]
  | cons x rest ih =>
    simp only [array_loop, List.map, List.flatten_cons]
    rw [array_loop_append, operator_shl_ptr_append, ih]
    simp [List.append_assoc]

theorem object_loop_text (l : List (std_string × Option (json_base double))) :
    object_loop char_signed fmt l []
      = (l.map (fun e => lit "," ++ member_text char_signed fmt e)).flatten := by
  induction l with
  | nil => simp [object_loop]
  | cons e rest ih =>
    obtain ⟨k, v⟩ := e
    simp only [object_loop, List.map, List.flatten_cons]
    rw [object_loop_append, operator_shl_ptr_append, ih]
    simp only [member_text, lit_comma_quote, List.append_assoc, List.nil_append]

theorem stream_array_text (data : List (Option (json_base double))) (o : ostream) :
    json_base.stream char_signed fmt (.array_json data) o
      = o ++ lit "[" ++ List.intercalate (lit ",") (data.map (operator_shl_ptr char_signed fmt []))
          ++ lit "]" := by
  cases data with
  | nil => simp [json_base.stream, List.intercalate]
  | cons x rest =>
    rw [List.map_cons, intercalate_cons_eq, List.map_map]
    simp only [json_base.stream]
    rw [array_loop_append, operator_shl_ptr_append, array_loop_text]
    simp [List.append_assoc, Function.comp_def]

theorem stream_object_text (data : List (std_string × Option (json_base double)))
    (o : ostream) :
    json_base.stream char_signed fmt (.object_json data) o
      = o ++ lit "\x7b" ++ List.intercalate (lit ",") (data.map (member_text char_signed fmt))
          ++ lit "\x7d" := by
  cases data with
  | nil => simp [json_base.stream, List.intercalate]
  | cons e rest =>
    obtain ⟨k, v⟩ := e
    rw [List.map_cons, intercalate_cons_eq, List.map_map]
    simp only [json_base.stream]
    rw [object_loop_append, operator_shl_ptr_append, object_loop_text]
    simp only [List.append_assoc, Function.comp_def, member_text]

end stream_text

/-! ## Claims on the `stream` members -/

/-- C3: `object_json::stream` writes an opening brace, then for each entry of `data` in
iteration order the text made of a double quote, the escaped key, a double quote and a
colon, and the serialization of the entry's value, with one comma between consecutive
entries and none before the first or after the last, then a closing brace; with no entry it
writes the two braces only; and the object with the single key `x` mapped to the array of
an explicit null and the string `ab<LF>cd` is written as `{"x":[null,"ab\u000acd"]}`. -/
theorem object_json_stream_text {double : Type} (char_signed : Bool)
    (fmt : double → std_string) (data : List (std_string × Option (json_base double)))
    (o : ostream) :
    json_base.stream char_signed fmt (.object_json data) o
        = o ++ lit "\x7b"
            ++ List.intercalate (lit ",")
                (data.map (fun e => lit "\"" ++ json_escape char_signed e.1 ++ lit "\":"
                  ++ operator_shl_ptr char_signed fmt [] e.2))
            ++ lit "\x7d"
      ∧ json_base.stream char_signed fmt (.object_json []) o = o ++ lit "\x7b\x7d"
      ∧ json_base.stream char_signed fmt
          (.object_json [(lit "x",
            some (.array_json [some .null_json, some (.string_json (lit "ab\ncd"))]))]) []
          = lit "\x7b\"x\":[null,\"ab\\u000acd\"]\x7d" := by
  refine ⟨?_, ?_, ?_⟩
  · exact stream_object_text char_signed fmt data o
  · rw [stream_object_text]
    simp only [List.map_nil, List.intercalate, List.intersperse, List.flatten_nil,
      List.append_nil, List.append_assoc]
    rfl
  · cases char_signed <;> rfl

/-- C6: `array_json::stream` writes an opening bracket, then the serialization of each child
in the order of the vector `data`, with one comma between consecutive children and none
before the first or after the last, then a closing bracket; the empty array is written as
`[]`, and the array of a number and the boolean `true` as an opening bracket, the rendering
of the number, and `,true]`. -/
theorem array_json_stream_text {double : Type} (char_signed : Bool)
    (fmt : double → std_string) (data : List (Option (json_base double)))
    (o : ostream) (one : double) :
    json_base.stream char_signed fmt (.array_json data) o
        = o ++ lit "["
            ++ List.intercalate (lit ",") (data.map (operator_shl_ptr char_signed fmt []))
            ++ lit "]"
      ∧ json_base.stream char_signed fmt (.array_json []) [] = lit "[]"
      ∧ json_base.stream char_signed fmt
          (.array_json [some (.number_json one), some (.boolean_json true)]) []
          = lit "[" ++ fmt one ++ lit ",true]" := by
  refine ⟨?_, ?_, ?_⟩
  · exact stream_array_text char_signed fmt data o
  · rfl
  · simp only [json_base.stream, array_loop, operator_shl_ptr, List.nil_append,
      List.append_assoc, if_true]
    rfl

/-- C7: `string_json::stream` writes a double quote, then `json_escape` of the payload, then
a double quote, and nothing else. -/
theorem string_json_stream_text {double : Type} (char_signed : Bool)
    (fmt : double → std_string) (s : std_string) (o : ostream) :
    json_base.stream char_signed fmt (.string_json s) o
      = o ++ lit "\"" ++ json_escape char_signed s ++ lit "\"" := by
  simp only [json_base.stream]

/-- C8: serializing a null `shared_ptr` writes `[nullptr]`; serializing a non-null one writes
what `operator<<` for the pointed-to value writes, which is what its `stream` writes; a
`null_json` writes `null`; and on every sink the two outputs differ. -/
theorem operator_shl_ptr_absent_or_present {double : Type} (char_signed : Bool)
    (fmt : double → std_string) (o : ostream) (v : json_base double) :
    operator_shl_ptr char_signed fmt o none = o ++ lit "[nullptr]"
      ∧ operator_shl_ptr char_signed fmt o (some v) = operator_shl char_signed fmt o v
      ∧ operator_shl char_signed fmt o v = json_base.stream char_signed fmt v o
      ∧ json_base.stream char_signed fmt (.null_json : json_base double) o = o ++ lit "null"
      ∧ operator_shl_ptr char_signed fmt o (some .null_json)
          ≠ operator_shl_ptr char_signed fmt o none := by
  refine ⟨?_, ?_, ?_, ?_, ?_⟩
  · simp only [operator_shl_ptr]
  · simp only [operator_shl_ptr, operator_shl]
  · rfl
  · simp only [json_base.stream]
  · simp only [operator_shl_ptr, json_base.stream]
    intro hEq
    have h2 := List.append_cancel_left hEq
    revert h2
    decide

/-! ## Lemmas on the key order and on insertion -/

theorem string_less_iff_lex (a : std_string) :
    ∀ b : std_string, string_less a b = true ↔ List.Lex (· < ·) a b := by
  induction a with
  | nil =>
    intro b
    cases b with
    | nil => simp [string_less]
    | cons y ys => simp [string_less, List.Lex.nil]
  | cons x xs ih =>
    intro b
    cases b with
    | nil => simp [string_less]
    | cons y ys =>
      simp only [string_less]
      rcases lt_trichotomy x y with hxy | hxy | hxy
      · simp only [hxy, if_true, true_iff]
        exact List.Lex.rel hxy
      · subst hxy
        simp only [lt_irrefl, if_false, ih ys]
        exact (List.Lex.cons_iff).symm
      · have hn : ¬ x < y := not_lt.mpr (le_of_lt hxy)
        simp only [hn, hxy, if_false, if_true]
        constructor
        · intro hf; cases hf
        · intro hl
          cases hl with
          | cons hl2 => exact absurd hxy (lt_irrefl _)
          | rel hr => exact absurd hr hn

theorem string_less_iff_lt (a b : std_string) : string_less a b = true ↔ a < b :=
  string_less_iff_lex a b

theorem string_less_eq_false_iff (a b : std_string) : string_less a b = false ↔ b ≤ a := by
  rw [← not_lt, ← string_less_iff_lt]
  simp

section insertion_lemmas
variable {V : Type}

theorem multimap_insert_perm (e : std_string × V) :
    ∀ m : List (std_string × V), (multimap_insert m e).Perm (e :: m) := by
  intro m
  induction m with
  | nil => simp [multimap_insert]
  | cons x rest ih =>
    simp only [multimap_insert]
    by_cases hlt : string_less e.1 x.1 = true
    · rw [if_pos hlt]
    · rw [if_neg hlt]
      exact (List.Perm.cons x ih).trans (List.Perm.swap e x rest)

theorem multimap_insert_sorted (e : std_string × V) :
    ∀ m : List (std_string × V),
      m.Pairwise (fun a b => string_less b.1 a.1 = false) →
      (multimap_insert m e).Pairwise (fun a b => string_less b.1 a.1 = false) := by
  intro m
  induction m with
  | nil => intro _; simp [multimap_insert]
  | cons x rest ih =>
    intro hs
    rw [List.pairwise_cons] at hs
    simp only [multimap_insert]
    by_cases hlt : string_less e.1 x.1 = true
    · rw [if_pos hlt]
      refine List.Pairwise.cons ?_ (List.Pairwise.cons hs.1 hs.2)
      intro y hy
      have hex : e.1 < x.1 := (string_less_iff_lt _ _).mp hlt
      rw [string_less_eq_false_iff]
      rcases List.mem_cons.mp hy with hyx | hyr
      · subst hyx; exact le_of_lt hex
      · have hxy : x.1 ≤ y.1 := (string_less_eq_false_iff _ _).mp (hs.1 y hyr)
        exact le_trans (le_of_lt hex) hxy
    · rw [if_neg hlt]
      refine List.Pairwise.cons ?_ (ih hs.2)
      intro y hy
      rcases List.mem_cons.mp ((multimap_insert_perm e rest).mem_iff.mp hy) with hye | hyr
      · subst hye; simpa using hlt
      · exact hs.1 y hyr

theorem multimap_insert_filter (e : std_string × V) (k : std_string) :
    ∀ m : List (std_string × V),
      m.Pairwise (fun a b => string_less b.1 a.1 = false) →
      (multimap_insert m e).filter (fun x => decide (x.1 = k))
        = m.filter (fun x => decide (x.1 = k)) ++ [e].filter (fun x => decide (x.1 = k)) := by
  intro m
  induction m with
  | nil => intro _; simp [multimap_insert]
  | cons x rest ih =>
    intro hs
    rw [List.pairwise_cons] at hs
    simp only [multimap_insert]
    by_cases hlt : string_less e.1 x.1 = true
    · rw [if_pos hlt]
      by_cases hek : e.1 = k
      · have hex : e.1 < x.1 := (string_less_iff_lt _ _).mp hlt
        have hnone : (x :: rest).filter (fun y => decide (y.1 = k)) = [] := by
          rw [List.filter_eq_nil_iff]
          intro y hy
          have hxy : x.1 ≤ y.1 := by
            rcases List.mem_cons.mp hy with hyx | hyr
            · subst hyx; exact le_refl _
            · exact (string_less_eq_false_iff _ _).mp (hs.1 y hyr)
          have hky : k < y.1 := hek ▸ lt_of_lt_of_le hex hxy
          simpa using (ne_of_lt hky).symm
        rw [List.filter_cons, hnone]
        simp [hek]
      · rw [List.filter_cons]
        simp [hek]
    · rw [if_neg hlt, List.filter_cons, ih hs.2]
      by_cases hxk : x.1 = k <;> simp [hxk]

theorem foldl_multimap_insert_sorted (ins : List (std_string × V)) :
    ∀ m : List (std_string × V),
      m.Pairwise (fun a b => string_less b.1 a.1 = false) →
      (ins.foldl multimap_insert m).Pairwise (fun a b => string_less b.1 a.1 = false) := by
  induction ins with
  | nil => intro m hs; exact hs
  | cons e rest ih =>
    intro m hs
    exact ih (multimap_insert m e) (multimap_insert_sorted e m hs)

theorem foldl_multimap_insert_perm (ins : List (std_string × V)) :
    ∀ m : List (std_string × V), (ins.foldl multimap_insert m).Perm (m ++ ins) := by
  induction ins with
  | nil => intro m; simp
  | cons e rest ih =>
    intro m
    refine (ih (multimap_insert m e)).trans ?_
    refine ((multimap_insert_perm e m).append_right rest).trans ?_
    simpa using (@List.perm_middle _ e m rest).symm

theorem foldl_multimap_insert_filter (k : std_string) (ins : List (std_string × V)) :
    ∀ m : List (std_string × V),
      m.Pairwise (fun a b => string_less b.1 a.1 = false) →
      (ins.foldl multimap_insert m).filter (fun x => decide (x.1 = k))
        = m.filter (fun x => decide (x.1 = k)) ++ ins.filter (fun x => decide (x.1 = k)) := by
  induction ins with
  | nil => intro m _; simp
  | cons e rest ih =>
    intro m hs
    rw [List.foldl_cons, ih (multimap_insert m e) (multimap_insert_sorted e m hs),
      multimap_insert_filter e k m hs, List.append_assoc, ← List.filter_append]
    rfl

/-- The comparison a stable sort by key uses: the key of `a` is not greater than that of
`b`. -/
theorem key_le_trans (a b c : std_string × V)
    (hab : (!string_less b.1 a.1) = true) (hbc : (!string_less c.1 b.1) = true) :
    (!string_less c.1 a.1) = true := by
  simp only [Bool.not_eq_true', string_less_eq_false_iff] at *
  exact le_trans hab hbc

theorem key_le_total (a b : std_string × V) :
    ((!string_less b.1 a.1) || (!string_less a.1 b.1)) = true := by
  simp only [Bool.or_eq_true, Bool.not_eq_true', string_less_eq_false_iff]
  exact le_total a.1 b.1

/-- Two lists with non-decreasing keys that agree, key by key, on the entries of that key
and their order are equal. -/
theorem sorted_eq_of_filter_eq :
    ∀ l1 l2 : List (std_string × V),
      l1.Pairwise (fun a b => string_less b.1 a.1 = false) →
      l2.Pairwise (fun a b => string_less b.1 a.1 = false) →
      (∀ k, l1.filter (fun x => decide (x.1 = k)) = l2.filter (fun x => decide (x.1 = k))) →
      l1 = l2 := by
  intro l1
  induction l1 with
  | nil =>
    intro l2 _ _ hf
    cases l2 with
    | nil => rfl
    | cons y u =>
      have h1 := hf y.1
      simp at h1
  | cons x t ih =>
    intro l2 hs1 hs2 hf
    cases l2 with
    | nil =>
      have h1 := hf x.1
      simp at h1
    | cons y u =>
      rw [List.pairwise_cons] at hs1 hs2
      have hxmem : x ∈ y :: u := by
        have h1 := hf x.1
        have h2 : x ∈ (x :: t).filter (fun z => decide (z.1 = x.1)) := by simp
        rw [h1] at h2
        exact (List.mem_filter.mp h2).1
      have hymem : y ∈ x :: t := by
        have h1 := hf y.1
        have h2 : y ∈ (y :: u).filter (fun z => decide (z.1 = y.1)) := by simp
        rw [← h1] at h2
        exact (List.mem_filter.mp h2).1
      have hxy : x.1 ≤ y.1 := by
        rcases List.mem_cons.mp hymem with hh | hh
        · rw [hh]
        · exact (string_less_eq_false_iff _ _).mp (hs1.1 y hh)
      have hyx : y.1 ≤ x.1 := by
        rcases List.mem_cons.mp hxmem with hh | hh
        · rw [hh]
        · exact (string_less_eq_false_iff _ _).mp (hs2.1 x hh)
      have hkey : y.1 = x.1 := le_antisymm hyx hxy
      have hhead : x = y := by
        have h1 := hf x.1
        simp only [List.filter_cons, hkey, decide_True, if_true] at h1
        exact (List.cons.inj h1).1
      subst hhead
      have htail : t = u := by
        refine ih u hs1.2 hs2.2 ?_
        intro k
        have h1 := hf k
        simp only [List.filter_cons] at h1
        by_cases hk : x.1 = k
        · simp only [hk, decide_True, if_true] at h1
          exact (List.cons.inj h1).2
        · simpa only [hk, decide_False, Bool.false_eq_true, if_false] using h1
      rw [htail]

/-- A stable sort by key keeps, for each key, the entries of that key in their order. -/
theorem mergeSort_filter_key (k : std_string) (ins : List (std_string × V)) :
    (ins.mergeSort (fun a b => !string_less b.1 a.1)).filter (fun x => decide (x.1 = k))
      = ins.filter (fun x => decide (x.1 = k)) := by
  have hsub : List.Sublist (ins.filter (fun x => decide (x.1 = k)))
      (ins.mergeSort (fun a b => !string_less b.1 a.1)) := by
    refine List.sublist_mergeSort key_le_trans key_le_total ?_ (List.filter_sublist ins)
    rw [List.pairwise_iff_forall_sublist]
    intro a b hab
    have ha : a.1 = k := by
      have := hab.subset (List.mem_cons_self a [b])
      simpa using (List.mem_filter.mp this).2
    have hb : b.1 = k := by
      have := hab.subset (List.mem_cons_of_mem a (List.mem_singleton_self b))
      simpa using (List.mem_filter.mp this).2
    simp only [Bool.not_eq_true', string_less_eq_false_iff, ha, hb, le_refl]
  have hsub2 := hsub.filter (fun x => decide (x.1 = k))
  rw [List.filter_filter] at hsub2
  simp only [Bool.and_self] at hsub2
  have hlen : ((ins.mergeSort (fun a b => !string_less b.1 a.1)).filter
      (fun x => decide (x.1 = k))).length = (ins.filter (fun x => decide (x.1 = k))).length := by
    exact ((List.mergeSort_perm ins _).filter _).length_eq
  exact (hsub2.eq_of_length hlen.symm).symm

end insertion_lemmas

/-! ## Claims on the member container of `object_json` -/

/-- C4: after any sequence of insertions into an object, `object_json::stream` writes the
entries in the order of `data`, and that order is the stable sort of the insertion sequence
by key: the keys are non-decreasing for `std::less< std::string >`, and for every key the
entries of that key come in the order of their insertion. -/
theorem object_entries_stable_sort {double : Type} (char_signed : Bool)
    (fmt : double → std_string) (ins : List (std_string × Option (json_base double)))
    (o : ostream) :
    json_base.stream char_signed fmt (.object_json (multimap_of_insertions ins)) o
        = o ++ lit "\x7b"
            ++ List.intercalate (lit ",")
                ((multimap_of_insertions ins).map
                  (fun e => lit "\"" ++ json_escape char_signed e.1 ++ lit "\":"
                    ++ operator_shl_ptr char_signed fmt [] e.2))
            ++ lit "\x7d"
      ∧ multimap_of_insertions ins = ins.mergeSort (fun a b => !string_less b.1 a.1)
      ∧ (multimap_of_insertions ins).Pairwise (fun a b => string_less b.1 a.1 = false)
      ∧ (∀ k : std_string,
          (multimap_of_insertions ins).filter (fun e => decide (e.1 = k))
            = ins.filter (fun e => decide (e.1 = k)))
      ∧ multimap_of_insertions
          [(lit "b", (none : Option (json_base double))), (lit "a", some .null_json),
           (lit "", none), (lit "a", none), (lit "ab", none)]
          = [(lit "", none), (lit "a", some .null_json), (lit "a", none), (lit "ab", none),
             (lit "b", none)] := by
  have hsorted : (multimap_of_insertions ins).Pairwise
      (fun a b => string_less b.1 a.1 = false) :=
    foldl_multimap_insert_sorted ins [] List.Pairwise.nil
  have hfilter : ∀ k : std_string,
      (multimap_of_insertions ins).filter (fun e => decide (e.1 = k))
        = ins.filter (fun e => decide (e.1 = k)) := by
    intro k
    have h1 := foldl_multimap_insert_filter k ins [] List.Pairwise.nil
    simpa [multimap_of_insertions] using h1
  refine ⟨stream_object_text char_signed fmt _ o, ?_, hsorted, hfilter, ?_⟩
  swap
  · simp only [multimap_of_insertions, List.foldl_cons, List.foldl_nil, multimap_insert]
    rfl
  refine sorted_eq_of_filter_eq _ _ hsorted ?_ ?_
  · have h1 := @List.sorted_mergeSort _ (fun a b => !string_less b.1 a.1)
      key_le_trans key_le_total ins
    refine h1.imp ?_
    intro a b hab
    simpa using hab
  · intro k
    rw [hfilter k, mergeSort_filter_key]

/-- C5: insertion merges and drops nothing: the entries that `object_json::stream` writes are
a permutation of the inserted pairs, so for every key as many entries are written as
insertions were made with it; after the insertions `(a,1)`, `(a,2)`, `(b,3)` the output is
`{"a":` rendering of 1 `,"a":` rendering of 2 `,"b":` rendering of 3 `}`, which is
`{"a":1,"a":2,"b":3}` when the three numbers are rendered as `1`, `2` and `3`. -/
theorem object_entries_preserved {double : Type} (char_signed : Bool)
    (fmt : double → std_string) (ins : List (std_string × Option (json_base double)))
    (o : ostream) (k : std_string) (one two three : double) :
    json_base.stream char_signed fmt (.object_json (multimap_of_insertions ins)) o
        = o ++ lit "\x7b"
            ++ List.intercalate (lit ",")
                ((multimap_of_insertions ins).map
                  (fun e => lit "\"" ++ json_escape char_signed e.1 ++ lit "\":"
                    ++ operator_shl_ptr char_signed fmt [] e.2))
            ++ lit "\x7d"
      ∧ (multimap_of_insertions ins).Perm ins
      ∧ (multimap_of_insertions ins).countP (fun e => decide (e.1 = k))
          = ins.countP (fun e => decide (e.1 = k))
      ∧ json_base.stream char_signed fmt
          (.object_json (multimap_of_insertions
            [(lit "a", some (.number_json one)), (lit "a", some (.number_json two)),
             (lit "b", some (.number_json three))])) []
          = lit "\x7b\"a\":" ++ fmt one ++ lit ",\"a\":" ++ fmt two ++ lit ",\"b\":"
              ++ fmt three ++ lit "\x7d"
      ∧ (fmt one = lit "1" → fmt two = lit "2" → fmt three = lit "3" →
          json_base.stream char_signed fmt
            (.object_json (multimap_of_insertions
              [(lit "a", some (.number_json one)), (lit "a", some (.number_json two)),
               (lit "b", some (.number_json three))])) []
            = lit "\x7b\"a\":1,\"a\":2,\"b\":3\x7d") := by
  have hperm : (multimap_of_insertions ins).Perm ins := by
    simpa [multimap_of_insertions] using foldl_multimap_insert_perm ins []
  have hdata : multimap_of_insertions
      [(lit "a", some (json_base.number_json one)), (lit "a", some (.number_json two)),
       (lit "b", some (.number_json three))]
      = [(lit "a", some (.number_json one)), (lit "a", some (.number_json two)),
         (lit "b", some (.number_json three))] := by
    simp only [multimap_of_insertions, List.foldl_cons, List.foldl_nil, multimap_insert]
    rfl
  have hout : json_base.stream char_signed fmt
      (.object_json (multimap_of_insertions
        [(lit "a", some (.number_json one)), (lit "a", some (.number_json two)),
         (lit "b", some (.number_json three))])) []
      = lit "\x7b\"a\":" ++ fmt one ++ lit ",\"a\":" ++ fmt two ++ lit ",\"b\":"
          ++ fmt three ++ lit "\x7d" := by
    rw [hdata]
    simp only [json_base.stream, object_loop, operator_shl_ptr, List.nil_append,
      List.append_assoc]
    cases char_signed <;> rfl
  refine ⟨stream_object_text char_signed fmt _ o, hperm, hperm.countP_eq _, hout, ?_⟩
  intro h1 h2 h3
  rw [hout, h1, h2, h3]
  rfl

theorem object_entries_preserved_witness :
    ((fun n : Nat => ([Fin.ofNat (48 + n)] : std_string)) 1 = lit "1"
      ∧ (fun n : Nat => ([Fin.ofNat (48 + n)] : std_string)) 2 = lit "2"
      ∧ (fun n : Nat => ([Fin.ofNat (48 + n)] : std_string)) 3 = lit "3")
    ∧ json_base.stream true (fun n : Nat => ([Fin.ofNat (48 + n)] : std_string))
        (.object_json (multimap_of_insertions
          [(lit "a", some (.number_json 1)), (lit "a", some (.number_json 2)),
           (lit "b", some (.number_json 3))])) []
        = lit "\x7b\"a\":1,\"a\":2,\"b\":3\x7d" :=
  ⟨by decide,
   (object_entries_preserved true (fun n : Nat => ([Fin.ofNat (48 + n)] : std_string))
      [(lit "b", none), (lit "a", none)] [] (lit "a") 1 2 3).2.2.2.2
      (by decide) (by decide) (by decide)⟩

/-! ## The two entry points -/

/-- A text that starts with the non-empty `p` differs from a text with another first byte. -/
theorem append_ne_of_head (p q x : std_string) (hp : p ≠ []) (hpq : p.head? ≠ q.head?) :
    p ++ x ≠ q := by
  intro hEq
  cases p with
  | nil => exact hp rfl
  | cons c t =>
    apply hpq
    rw [← hEq]
    rfl

section distinct
variable {double : Type} (char_signed : Bool) (fmt : double → std_string)

/-- The text a present child contributes is not `nullptr`, unless a number is rendered so. -/
theorem stream_ne_nullptr_word (hnum : ∀ d, fmt d ≠ lit "nullptr") (j : json_base double) :
    json_base.stream char_signed fmt j [] ≠ lit "nullptr" := by
  cases j with
  | array_json data =>
    rw [stream_array_text, List.nil_append, List.append_assoc]
    exact append_ne_of_head _ _ _ (by decide) (by decide)
  | boolean_json b =>
    simp only [json_base.stream, List.nil_append]
    cases b <;> decide
  | null_json =>
    simp only [json_base.stream, List.nil_append]
    decide
  | number_json d =>
    simp only [json_base.stream, List.nil_append]
    exact hnum d
  | string_json s =>
    simp only [json_base.stream, List.nil_append, List.append_assoc]
    exact append_ne_of_head _ _ _ (by decide) (by decide)
  | object_json data =>
    rw [stream_object_text, List.nil_append, List.append_assoc]
    exact append_ne_of_head _ _ _ (by decide) (by decide)

/-- The text of a value is not `[nullptr]`, unless a number is rendered as `nullptr` or as
`[nullptr]`. -/
theorem stream_ne_absent (hnum : ∀ d, fmt d ≠ lit "nullptr")
    (htop : ∀ d, fmt d ≠ lit "[nullptr]") (v : json_base double) :
    json_base.stream char_signed fmt v [] ≠ lit "[nullptr]" := by
  cases v with
  | array_json data =>
    rw [stream_array_text, List.nil_append]
    intro hEq
    have hsplit : lit "[nullptr]" = lit "[" ++ lit "nullptr" ++ lit "]" := by decide
    rw [hsplit] at hEq
    have hmid := List.append_cancel_left (List.append_cancel_right hEq)
    cases data with
    | nil =>
      rw [List.map_nil] at hmid
      revert hmid
      decide
    | cons x rest =>
      rw [List.map_cons, intercalate_cons_eq] at hmid
      cases rest with
      | cons y more =>
        have hmem : (44 : char) ∈ lit "nullptr" := by
          rw [← hmid]
          simp only [List.map_cons, List.flatten_cons, List.mem_append]
          exact Or.inr (Or.inl (Or.inl (by decide)))
        revert hmem
        decide
      | nil =>
        simp only [List.map_nil, List.flatten_nil, List.append_nil] at hmid
        cases x with
        | none =>
          revert hmid
          simp only [operator_shl_ptr, List.nil_append]
          decide
        | some j =>
          simp only [operator_shl_ptr] at hmid
          exact stream_ne_nullptr_word char_signed fmt hnum j hmid
  | boolean_json b =>
    simp only [json_base.stream, List.nil_append]
    cases b <;> decide
  | null_json =>
    simp only [json_base.stream, List.nil_append]
    decide
  | number_json d =>
    simp only [json_base.stream, List.nil_append]
    exact htop d
  | string_json s =>
    simp only [json_base.stream, List.nil_append, List.append_assoc]
    exact append_ne_of_head _ _ _ (by decide) (by decide)
  | object_json data =>
    rw [stream_object_text, List.nil_append, List.append_assoc]
    exact append_ne_of_head _ _ _ (by decide) (by decide)

end distinct

/-- C9: for every value `v` of any of the six classes, with any children, the text written
for a present handle to `v` differs from the text `[nullptr]` written for an absent handle,
on the empty sink and after any earlier output, provided no number is rendered as `nullptr`
(which a child would contribute) or as `[nullptr]` (which a number would write itself). -/
theorem present_ne_absent {double : Type} (char_signed : Bool) (fmt : double → std_string)
    (hnum : ∀ d, fmt d ≠ lit "nullptr") (htop : ∀ d, fmt d ≠ lit "[nullptr]")
    (v : json_base double) (o : ostream) :
    json_base.stream char_signed fmt v [] ≠ lit "[nullptr]"
      ∧ operator_shl char_signed fmt o v ≠ operator_shl_ptr char_signed fmt o none
      ∧ operator_shl_ptr char_signed fmt o (some v)
          ≠ operator_shl_ptr char_signed fmt o none := by
  have h0 := stream_ne_absent char_signed fmt hnum htop v
  have h1 : json_base.stream char_signed fmt v o ≠ o ++ lit "[nullptr]" := by
    rw [stream_append]
    intro hEq
    exact h0 (List.append_cancel_left hEq)
  exact ⟨h0, by simpa only [operator_shl, operator_shl_ptr] using h1,
    by simpa only [operator_shl_ptr] using h1⟩

theorem present_ne_absent_witness :
    ((∀ d : Nat, (fun n : Nat => ([Fin.ofNat (48 + n)] : std_string)) d ≠ lit "nullptr")
      ∧ (∀ d : Nat, (fun n : Nat => ([Fin.ofNat (48 + n)] : std_string)) d ≠ lit "[nullptr]"))
    ∧ json_base.stream true (fun n : Nat => ([Fin.ofNat (48 + n)] : std_string))
        (.array_json [some (.number_json 7), none, some (.string_json (lit "nullptr"))]) []
        ≠ lit "[nullptr]" :=
  ⟨⟨fun _ hEq => absurd (show 1 = 7 from congrArg List.length hEq) (by decide),
    fun _ hEq => absurd (show 1 = 9 from congrArg List.length hEq) (by decide)⟩,
   (present_ne_absent true (fun n : Nat => ([Fin.ofNat (48 + n)] : std_string))
      (fun _ hEq => absurd (show 1 = 7 from congrArg List.length hEq) (by decide))
      (fun _ hEq => absurd (show 1 = 9 from congrArg List.length hEq) (by decide))
      (.array_json [some (.number_json 7), none, some (.string_json (lit "nullptr"))]) []).1⟩

/-- C9, as first stated, fails for a number at the root: a rendering of numbers that is
never the text `nullptr` can be the text `[nullptr]`, and then a `number_json` is written as
the nine characters that an absent handle is written as. -/
theorem number_rendered_as_absent :
    (∀ d : Unit, (fun _ : Unit => lit "[nullptr]") d ≠ lit "nullptr")
      ∧ json_base.stream true (fun _ : Unit => lit "[nullptr]") (.number_json ()) []
          = lit "[nullptr]"
      ∧ operator_shl_ptr true (fun _ : Unit => lit "[nullptr]") [] (some (.number_json ()))
          = operator_shl_ptr true (fun _ : Unit => lit "[nullptr]") [] none
      ∧ ¬ (∀ fmt : Unit → std_string, (∀ d, fmt d ≠ lit "nullptr") →
            ∀ v : json_base Unit, json_base.stream true fmt v [] ≠ lit "[nullptr]") := by
  have h0 : lit "[nullptr]" ≠ lit "nullptr" := by decide
  have h1 : ∀ d : Unit, (fun _ : Unit => lit "[nullptr]") d ≠ lit "nullptr" :=
    fun _ => h0
  refine ⟨h1, rfl, rfl, ?_⟩
  intro hall
  exact hall (fun _ : Unit => lit "[nullptr]") h1 (.number_json ()) rfl

/-! ## `json_escape` and the JSON string grammar -/

set_option maxRecDepth 100000 in
/-- Apart from the double quote and the backslash, a byte is either copied, and is then
neither a control character nor one of these two, or replaced by `\u00` and its two
hexadecimal digits. -/
theorem json_escape_char_shape :
    ∀ (char_signed : Bool) (b : char), b.val ≠ 0x22 → b.val ≠ 0x5c →
      (json_escape_char char_signed [] b = [b] ∧ 0x20 ≤ b.val)
        ∨ json_escape_char char_signed [] b
            = [0x5c, 0x75, 0x30, 0x30, hex_digit (b.val / 16), hex_digit (b.val % 16)] := by
  decide

set_option maxRecDepth 100000 in
theorem is_hex_digit_hex_digit :
    ∀ b : char, is_hex_digit (hex_digit (b.val / 16)) = true
      ∧ is_hex_digit (hex_digit (b.val % 16)) = true := by
  decide

/-- On an input with no double quote and no backslash the output of `json_escape` is the
inside of a well-formed JSON string literal. -/
theorem json_escape_body_ok_of_plain (char_signed : Bool) (s : std_string)
    (hs : ∀ c ∈ s, c.val ≠ 0x22 ∧ c.val ≠ 0x5c) :
    json_string_body_ok (json_escape char_signed s) = true := by
  unfold json_string_body_ok
  induction s with
  | nil => rfl
  | cons b t ih =>
    have hb := hs b (List.mem_cons_self b t)
    have ht := ih (fun c hc => hs c (List.mem_cons_of_mem b hc))
    rw [json_escape_cons]
    rcases json_escape_char_shape char_signed b hb.1 hb.2 with ⟨hcopy, hge⟩ | hesc
    · rw [hcopy]
      have h1 : ¬ b.val < 0x20 := not_lt.mpr hge
      simp only [List.singleton_append, json_string_body_from, h1, hb.1, hb.2, if_false]
      exact ht
    · rw [hesc]
      have hx := is_hex_digit_hex_digit b
      simp only [List.cons_append, List.nil_append, json_string_body_from, hx.1, hx.2, if_true]
      have e1 : ((0x5c : char).val < 0x20) = False := by decide
      have e2 : ((0x5c : char).val = 0x22) = False := by decide
      have e3 : ((0x5c : char).val = 0x5c) = True := by decide
      have e4 : ((0x75 : char) ∈ lit "\"\\/bfnrt") = False := by decide
      have e5 : ((0x75 : char).val = 0x75) = True := by decide
      have e6 : is_hex_digit (0x30 : char) = true := by decide
      simp only [e1, e2, e3, e4, e5, e6, if_true, if_false]
      exact ht

/-- C10: `json_escape` copies a double quote as it is, so its output is not the inside of a
well-formed JSON string literal: for the one-character string `"` it returns `"`, which
`string_json::stream` writes between two quotes as `"""`; a lone backslash is copied too and
then stands before the closing quote. -/
theorem json_escape_quote_unsafe (char_signed : Bool) :
    json_escape char_signed (lit "\"") = lit "\""
      ∧ json_string_body_ok (json_escape char_signed (lit "\"")) = false
      ∧ json_base.stream char_signed (fun n : Nat => ([Fin.ofNat (48 + n)] : std_string))
          (.string_json (lit "\"")) [] = lit "\"\"\""
      ∧ json_escape char_signed (lit "\\") = lit "\\"
      ∧ json_string_body_ok (json_escape char_signed (lit "\\")) = false := by
  cases char_signed <;> decide

/-! ## Further claims on `json_escape` -/

/-- A double quote and a backslash take the copy branch, whatever the signedness of `char`. -/
theorem json_escape_char_quote_backslash (char_signed : Bool) :
    json_escape_char char_signed [] 0x22 = [0x22]
      ∧ json_escape_char char_signed [] 0x5c = [0x5c] := by
  cases char_signed <;> decide

set_option maxRecDepth 100000 in
/-- One iteration of the loop either copies the byte, which is then no control character as
a byte and as a `char`, or appends `\u00` and the two hexadecimal digits of the byte. -/
theorem json_escape_char_cases :
    ∀ (char_signed : Bool) (b : char),
      (json_escape_char char_signed [] b = [b] ∧ 0x20 ≤ b.val ∧ b.val ≠ 0x7F
          ∧ ¬ (char_value char_signed b < 32) ∧ char_value char_signed b ≠ 127)
        ∨ json_escape_char char_signed [] b
            = [0x5c, 0x75, 0x30, 0x30, hex_digit (b.val / 16), hex_digit (b.val % 16)] := by
  decide

set_option maxRecDepth 100000 in
/-- The characters of an escape sequence are copied by the loop. -/
theorem json_escape_char_of_escape_text :
    ∀ (char_signed : Bool), ∀ c ∈ lit "\\u0123456789abcdef",
      0x20 ≤ c.val ∧ c.val ≠ 0x7F ∧ ¬ (char_value char_signed c < 32)
        ∧ char_value char_signed c ≠ 127 ∧ json_escape_char char_signed [] c = [c] := by
  decide

set_option maxRecDepth 100000 in
theorem hex_digit_mem_escape_text :
    ∀ b : char, hex_digit (b.val / 16) ∈ lit "\\u0123456789abcdef"
      ∧ hex_digit (b.val % 16) ∈ lit "\\u0123456789abcdef" := by
  decide

/-- Every byte that one iteration of the loop appends is at least `0x20`, is not `0x7F`, and
is itself a byte that the loop copies. -/
theorem json_escape_char_output (char_signed : Bool) (b c : char)
    (hc : c ∈ json_escape_char char_signed [] b) :
    0x20 ≤ c.val ∧ c.val ≠ 0x7F ∧ ¬ (char_value char_signed c < 32)
      ∧ char_value char_signed c ≠ 127 ∧ json_escape_char char_signed [] c = [c] := by
  rcases json_escape_char_cases char_signed b with ⟨hcopy, h1, h2, h3, h4⟩ | hesc
  · rw [hcopy, List.mem_singleton] at hc
    subst hc
    exact ⟨h1, h2, h3, h4, hcopy⟩
  · rw [hesc] at hc
    have hx := hex_digit_mem_escape_text b
    apply json_escape_char_of_escape_text char_signed c
    simp only [List.mem_cons, List.mem_singleton, List.not_mem_nil, or_false] at hc
    rcases hc with hc | hc | hc | hc | hc | hc
    · rw [hc]; decide
    · rw [hc]; decide
    · rw [hc]; decide
    · rw [hc]; decide
    · rw [hc]; exact hx.1
    · rw [hc]; exact hx.2

/-- A string whose bytes are all copied by the loop is returned as it is. -/
theorem json_escape_eq_self (char_signed : Bool) (s : std_string)
    (hs : ∀ c ∈ s, json_escape_char char_signed [] c = [c]) :
    json_escape char_signed s = s := by
  induction s with
  | nil => rfl
  | cons b t ih =>
    rw [json_escape_cons, hs b (List.mem_cons_self b t),
      ih (fun c hc => hs c (List.mem_cons_of_mem b hc))]
    rfl

theorem mem_json_escape (char_signed : Bool) (s : std_string) (c : char)
    (hc : c ∈ json_escape char_signed s) :
    ∃ b ∈ s, c ∈ json_escape_char char_signed [] b := by
  induction s with
  | nil => simp [json_escape_nil] at hc
  | cons b t ih =>
    rw [json_escape_cons, List.mem_append] at hc
    rcases hc with hb | ht
    · exact ⟨b, List.mem_cons_self b t, hb⟩
    · obtain ⟨b2, hb2, hc2⟩ := ih ht
      exact ⟨b2, List.mem_cons_of_mem b hb2, hc2⟩

/-- C11: `json_escape` does not escape the double quote or the backslash: wherever one of
them stands in the input, the output has that single character at the place between the
escaped text before it and the escaped text after it, with nothing inserted; `json_escape`
of the one-character string `"` is `"`, and of a lone backslash a lone backslash. -/
theorem json_escape_keeps_quote_backslash (char_signed : Bool) (a b : std_string) :
    json_escape char_signed (a ++ lit "\"" ++ b)
        = json_escape char_signed a ++ lit "\"" ++ json_escape char_signed b
      ∧ json_escape char_signed (a ++ lit "\\" ++ b)
          = json_escape char_signed a ++ lit "\\" ++ json_escape char_signed b
      ∧ json_escape char_signed (lit "\"") = lit "\""
      ∧ json_escape char_signed (lit "\\") = lit "\\"
      ∧ (json_escape char_signed (lit "\"")).length = 1
      ∧ (json_escape char_signed (lit "\\")).length = 1 := by
  have hq : json_escape char_signed (lit "\"") = lit "\"" := by
    cases char_signed <;> decide
  have hb : json_escape char_signed (lit "\\") = lit "\\" := by
    cases char_signed <;> decide
  refine ⟨?_, ?_, hq, hb, ?_, ?_⟩
  · rw [json_escape_append, json_escape_append, hq]
  · rw [json_escape_append, json_escape_append, hb]
  · rw [hq]; rfl
  · rw [hb]; rfl

/-- C16: `json_escape` is not injective: the one-byte string `0x0A` and the six-character
string backslash, `u`, `0`, `0`, `0`, `a` are different and both are escaped to the six
characters `\u000a`. -/
theorem json_escape_not_injective (char_signed : Bool) :
    ([0x0A] : std_string) ≠ lit "\\u000a"
      ∧ json_escape char_signed [0x0A] = lit "\\u000a"
      ∧ json_escape char_signed (lit "\\u000a") = lit "\\u000a"
      ∧ ¬ Function.Injective (json_escape char_signed) := by
  have h1 : ([0x0A] : std_string) ≠ lit "\\u000a" := by decide
  have h2 : json_escape char_signed [0x0A] = lit "\\u000a" := by
    cases char_signed <;> decide
  have h3 : json_escape char_signed (lit "\\u000a") = lit "\\u000a" := by
    cases char_signed <;> decide
  exact ⟨h1, h2, h3, fun hinj => h1 (hinj (h2.trans h3.symm))⟩

/-- C17: for every input, no byte of the output of `json_escape` is below `0x20` or equal to
`0x7F`, as a byte and as a `char`; so every byte of the output is copied by a second pass,
and `json_escape` of the output is the output. -/
theorem json_escape_idempotent (char_signed : Bool) (s : std_string) :
    (∀ c ∈ json_escape char_signed s,
        0x20 ≤ c.val ∧ c.val ≠ 0x7F ∧ ¬ (char_value char_signed c < 32)
          ∧ char_value char_signed c ≠ 127)
      ∧ json_escape char_signed (json_escape char_signed s) = json_escape char_signed s := by
  constructor
  · intro c hc
    obtain ⟨b, _, hcb⟩ := mem_json_escape char_signed s c hc
    have h1 := json_escape_char_output char_signed b c hcb
    exact ⟨h1.1, h1.2.1, h1.2.2.1, h1.2.2.2.1⟩
  · refine json_escape_eq_self char_signed _ ?_
    intro c hc
    obtain ⟨b, _, hcb⟩ := mem_json_escape char_signed s c hc
    exact (json_escape_char_output char_signed b c hcb).2.2.2.2

/-- C19: `json_escape` works byte by byte with no context: the empty string gives the empty
string, and the escape of a concatenation is the concatenation of the escapes. -/
theorem json_escape_concat (char_signed : Bool) (a b : std_string) :
    json_escape char_signed [] = []
      ∧ json_escape char_signed (a ++ b)
          = json_escape char_signed a ++ json_escape char_signed b :=
  ⟨json_escape_nil char_signed, json_escape_append char_signed a b⟩

/-- The table `h` has sixteen entries. -/
theorem h_length : h.length = 16 := by decide

/-- The two masked values are below sixteen for every `int`. -/
theorem index_lt_sixteen (c : Int) : hi_index c < 16 ∧ lo_index c < 16 := by
  unfold hi_index lo_index
  constructor
  · have h1 : int_bits c &&& 0xf0 ≤ 0xf0 := Nat.and_le_right
    rw [Nat.shiftRight_eq_div_pow]
    omega
  · have h1 : int_bits c &&& 0x0f ≤ 0x0f := Nat.and_le_right
    omega

set_option maxRecDepth 100000 in
/-- The two indices are the high and the low nibble of the byte of the `char`. -/
theorem index_eq_nibble :
    ∀ (char_signed : Bool) (b : char),
      hi_index (char_value char_signed b) = b.val / 16
        ∧ lo_index (char_value char_signed b) = b.val % 16 := by
  decide

/-- C20: for every `char` value `c`, so for every one that `json_escape` escapes, the
negative values of the bytes `0x80..0xFF` of a signed `char` included, the two indices
`( c & 0xf0 ) >> 4` and `c & 0x0f`, computed on the promoted `int`, are between 0 and 15:
both lookups are inside the sixteen digits of the table `h`, and they are the high and the
low nibble of the byte. -/
theorem hex_table_lookups_in_bounds (char_signed : Bool) (b : char) :
    h.length = 16
      ∧ hi_index (char_value char_signed b) < 16
      ∧ lo_index (char_value char_signed b) < 16
      ∧ hi_index (char_value char_signed b) = b.val / 16
      ∧ lo_index (char_value char_signed b) = b.val % 16
      ∧ h[hi_index (char_value char_signed b)]?
          = some (h.getD (hi_index (char_value char_signed b)) 0)
      ∧ h[lo_index (char_value char_signed b)]?
          = some (h.getD (lo_index (char_value char_signed b)) 0) := by
  have hb := index_lt_sixteen (char_value char_signed b)
  have hlen := h_length
  refine ⟨hlen, hb.1, hb.2, ?_, ?_, ?_, ?_⟩
  · exact (index_eq_nibble char_signed b).1
  · exact (index_eq_nibble char_signed b).2
  · rw [List.getD_eq_getElem?_getD, List.getElem?_eq_getElem (by omega)]
    rfl
  · rw [List.getD_eq_getElem?_getD, List.getElem?_eq_getElem (by omega)]
    rfl

/-! ## Further claims on the node classes -/

/-- C12: `null_json::stream` writes `null`, and `boolean_json::stream` writes `true` for the
payload `true` and `false` for the payload `false`, after whatever the sink holds. -/
theorem null_boolean_stream_text {double : Type} (char_signed : Bool)
    (fmt : double → std_string) (o : ostream) (b : Bool) :
    json_base.stream char_signed fmt (.null_json : json_base double) o = o ++ lit "null"
      ∧ json_base.stream char_signed fmt (.null_json : json_base double) [] = lit "null"
      ∧ json_base.stream char_signed fmt (.boolean_json b : json_base double) o
          = o ++ (if b = true then lit "true" else lit "false")
      ∧ json_base.stream char_signed fmt (.boolean_json true : json_base double) []
          = lit "true"
      ∧ json_base.stream char_signed fmt (.boolean_json false : json_base double) []
          = lit "false" := by
  refine ⟨?_, ?_, ?_, ?_, ?_⟩
  · simp only [json_base.stream]
  · rfl
  · simp only [json_base.stream]
  · rfl
  · rfl

/-- C14: each of the six constructors gives a node with the tag of its own class, whatever
its payload; since an `array_json` or `object_json` has that tag for every state of its
member `data`, the tag is the same after a child is appended to the vector, after an entry
is inserted into the multimap, and after any other change of `data`. -/
theorem type_of_constructor {double : Type}
    (children : List (Option (json_base double))) (child : Option (json_base double))
    (members : List (std_string × Option (json_base double)))
    (entry : std_string × Option (json_base double))
    (b : Bool) (d : double) (s : std_string) :
    (json_base.array_json ([] : List (Option (json_base double)))).type = json_type.ARRAY
      ∧ (json_base.boolean_json b : json_base double).type = json_type.BOOLEAN
      ∧ (json_base.null_json : json_base double).type = json_type.NULL_
      ∧ (json_base.number_json d).type = json_type.NUMBER
      ∧ (json_base.object_json
          ([] : List (std_string × Option (json_base double)))).type = json_type.OBJECT
      ∧ (json_base.string_json s : json_base double).type = json_type.STRING
      ∧ (json_base.array_json children).type = json_type.ARRAY
      ∧ (json_base.array_json (children ++ [child])).type
          = (json_base.array_json children).type
      ∧ (json_base.object_json members).type = json_type.OBJECT
      ∧ (json_base.object_json (multimap_insert members entry)).type
          = (json_base.object_json members).type := by
  refine ⟨rfl, rfl, rfl, rfl, rfl, rfl, rfl, rfl, rfl, rfl⟩

/-- C15: serialization is not injective: the array of the single string `a","b` and the
array of the two strings `a` and `b` are different values, and both are written as
`["a","b"]`. -/
theorem stream_not_injective {double : Type} (char_signed : Bool)
    (fmt : double → std_string) :
    (json_base.array_json [some (.string_json (lit "a\",\"b"))] : json_base double)
        ≠ .array_json [some (.string_json (lit "a")), some (.string_json (lit "b"))]
      ∧ json_base.stream char_signed fmt
          (.array_json [some (.string_json (lit "a\",\"b"))]) [] = lit "[\"a\",\"b\"]"
      ∧ json_base.stream char_signed fmt
          (.array_json [some (.string_json (lit "a")), some (.string_json (lit "b"))]) []
          = lit "[\"a\",\"b\"]"
      ∧ ¬ Function.Injective
          (fun v : json_base double => json_base.stream char_signed fmt v []) := by
  have hne : (json_base.array_json [some (.string_json (lit "a\",\"b"))] : json_base double)
      ≠ .array_json [some (.string_json (lit "a")), some (.string_json (lit "b"))] := by
    intro hEq
    have hlen := congrArg List.length (json_base.array_json.inj hEq)
    exact absurd (show 1 = 2 from hlen) (by decide)
  have h1 : json_base.stream char_signed fmt
      (.array_json [some (.string_json (lit "a\",\"b"))]) [] = lit "[\"a\",\"b\"]" := by
    cases char_signed <;> rfl
  have h2 : json_base.stream char_signed fmt
      (.array_json [some (.string_json (lit "a")), some (.string_json (lit "b"))]) []
      = lit "[\"a\",\"b\"]" := by
    cases char_signed <;> rfl
  exact ⟨hne, h1, h2, fun hinj => hne (hinj (h1.trans h2.symm))⟩

/-- C18: an absent child is written, not skipped: a null pointer among the children of an
array, or as the value of an object member, contributes the text `[nullptr]` at its place
between the texts of its neighbours; the array of one absent child is written as
`[[nullptr]]` and the object mapping the key `k` to an absent handle as `{"k":[nullptr]}`. -/
theorem absent_child_rendered {double : Type} (char_signed : Bool)
    (fmt : double → std_string) (pre post : List (Option (json_base double)))
    (mpre mpost : List (std_string × Option (json_base double))) (key : std_string)
    (o : ostream) :
    json_base.stream char_signed fmt (.array_json (pre ++ none :: post)) o
        = o ++ lit "["
            ++ List.intercalate (lit ",")
                (pre.map (operator_shl_ptr char_signed fmt []) ++ lit "[nullptr]"
                  :: post.map (operator_shl_ptr char_signed fmt []))
            ++ lit "]"
      ∧ json_base.stream char_signed fmt (.object_json (mpre ++ (key, none) :: mpost)) o
          = o ++ lit "\x7b"
              ++ List.intercalate (lit ",")
                  (mpre.map (member_text char_signed fmt)
                    ++ (lit "\"" ++ json_escape char_signed key ++ lit "\":"
                          ++ lit "[nullptr]")
                      :: mpost.map (member_text char_signed fmt))
              ++ lit "\x7d"
      ∧ json_base.stream char_signed fmt (.array_json [none]) [] = lit "[[nullptr]]"
      ∧ json_base.stream char_signed fmt (.object_json [(lit "k", none)]) []
          = lit "\x7b\"k\":[nullptr]\x7d" := by
  refine ⟨?_, ?_, ?_, ?_⟩
  · rw [stream_array_text, List.map_append, List.map_cons]
    simp only [operator_shl_ptr, List.nil_append]
  · rw [stream_object_text, List.map_append, List.map_cons]
    simp only [member_text, operator_shl_ptr, List.nil_append]
  · rfl
  · cases char_signed <;> rfl

/-! ## Serialization and the field width of the sink -/

theorem insert_width_zero (b : std_string) (f : char) (l : Bool) (seq : std_string) :
    (formatted_ostream.mk b 0 f l).insert seq = formatted_ostream.mk (b ++ seq) 0 f l := by
  cases l <;> simp [formatted_ostream.insert]

section formatted
variable {double : Type} (char_signed : Bool) (put_double : Nat → double → std_string)

mutual
theorem stream_formatted_width_zero :
    ∀ (j : json_base double) (b : std_string) (f : char) (l : Bool),
      json_base.stream_formatted char_signed put_double j (formatted_ostream.mk b 0 f l)
        = formatted_ostream.mk (json_base.stream char_signed (put_double 0) j b) 0 f l
  | .array_json [], b, f, l => by
    simp only [json_base.stream_formatted, json_base.stream, insert_width_zero]
  | .array_json (x :: rest), b, f, l => by
    have h1 := array_loop_formatted_width_zero rest
    have h2 := operator_shl_ptr_formatted_width_zero x
    simp only [json_base.stream_formatted, json_base.stream, insert_width_zero, h1, h2]
  | .boolean_json d, b, f, l => by
    simp only [json_base.stream_formatted, json_base.stream, insert_width_zero]
  | .null_json, b, f, l => by
    simp only [json_base.stream_formatted, json_base.stream, insert_width_zero]
  | .number_json d, b, f, l => by
    simp only [json_base.stream_formatted, json_base.stream, formatted_ostream.insert_double]
  | .string_json s, b, f, l => by
    simp only [json_base.stream_formatted, json_base.stream, insert_width_zero]
  | .object_json [], b, f, l => by
    simp only [json_base.stream_formatted, json_base.stream, insert_width_zero]
  | .object_json ((k, v) :: rest), b, f, l => by
    have h1 := object_loop_formatted_width_zero rest
    have h2 := operator_shl_ptr_formatted_width_zero v
    simp only [json_base.stream_formatted, json_base.stream, insert_width_zero, h1, h2]
theorem operator_shl_ptr_formatted_width_zero :
    ∀ (p : Option (json_base double)) (b : std_string) (f : char) (l : Bool),
      operator_shl_ptr_formatted char_signed put_double (formatted_ostream.mk b 0 f l) p
        = formatted_ostream.mk (operator_shl_ptr char_signed (put_double 0) b p) 0 f l
  | none, b, f, l => by
    simp only [operator_shl_ptr_formatted, operator_shl_ptr, insert_width_zero]
  | some j, b, f, l => by
    simp only [operator_shl_ptr_formatted, operator_shl_ptr]
    exact stream_formatted_width_zero j b f l
theorem array_loop_formatted_width_zero :
    ∀ (r : List (Option (json_base double))) (b : std_string) (f : char) (l : Bool),
      array_loop_formatted char_signed put_double r (formatted_ostream.mk b 0 f l)
        = formatted_ostream.mk (array_loop char_signed (put_double 0) r b) 0 f l
  | [], b, f, l => by simp only [array_loop_formatted, array_loop]
  | x :: rest, b, f, l => by
    have h1 := array_loop_formatted_width_zero rest
    have h2 := operator_shl_ptr_formatted_width_zero x
    simp only [array_loop_formatted, array_loop, insert_width_zero, h1, h2]
theorem object_loop_formatted_width_zero :
    ∀ (r : List (std_string × Option (json_base double))) (b : std_string) (f : char)
      (l : Bool),
      object_loop_formatted char_signed put_double r (formatted_ostream.mk b 0 f l)
        = formatted_ostream.mk (object_loop char_signed (put_double 0) r b) 0 f l
  | [], b, f, l => by simp only [object_loop_formatted, object_loop]
  | (k, v) :: rest, b, f, l => by
    have h1 := object_loop_formatted_width_zero rest
    have h2 := operator_shl_ptr_formatted_width_zero v
    simp only [object_loop_formatted, object_loop, insert_width_zero, h1, h2]
end

end formatted

/-- C13: on a sink whose field width is 0, serialization appends and is deterministic: for
every value `v` and every prior sink content, serializing `v` gives that content followed by
a text that depends on `v` alone (the text `stream` writes onto the empty sink) and leaves
the field width 0 and the fill character and adjustment as they were, so serializing the same
value a second time appends the same text again. -/
theorem stream_append_only_at_width_zero {double : Type} (char_signed : Bool)
    (put_double : Nat → double → std_string) (v : json_base double) (s : formatted_ostream)
    (hw : s.width = 0) :
    (json_base.stream_formatted char_signed put_double v s).bytes
        = s.bytes ++ json_base.stream char_signed (put_double 0) v []
      ∧ (json_base.stream_formatted char_signed put_double v s).width = 0
      ∧ (json_base.stream_formatted char_signed put_double v s).fill = s.fill
      ∧ (json_base.stream_formatted char_signed put_double v s).left = s.left
      ∧ (json_base.stream_formatted char_signed put_double v
            (json_base.stream_formatted char_signed put_double v s)).bytes
          = s.bytes ++ json_base.stream char_signed (put_double 0) v []
              ++ json_base.stream char_signed (put_double 0) v [] := by
  obtain ⟨b, w, f, l⟩ := s
  simp only at hw
  subst hw
  rw [stream_formatted_width_zero, stream_formatted_width_zero]
  refine ⟨?_, rfl, rfl, rfl, ?_⟩
  · exact stream_append char_signed (put_double 0) v b
  · show json_base.stream char_signed (put_double 0) v
        (json_base.stream char_signed (put_double 0) v b) = _
    rw [stream_append char_signed (put_double 0) v
        (json_base.stream char_signed (put_double 0) v b),
      stream_append char_signed (put_double 0) v b]

theorem stream_append_only_at_width_zero_witness :
    (formatted_ostream.mk (lit "x") 0 32 false).width = 0
      ∧ (json_base.stream_formatted true (fun (_ : Nat) (_ : Unit) => ([] : std_string))
            (.array_json [some (.boolean_json true), none])
            (formatted_ostream.mk (lit "x") 0 32 false)).bytes
          = lit "x" ++ json_base.stream true ((fun (_ : Nat) (_ : Unit) => ([] : std_string)) 0)
              (.array_json [some (.boolean_json true), none]) [] :=
  ⟨rfl,
   (stream_append_only_at_width_zero true (fun (_ : Nat) (_ : Unit) => ([] : std_string))
      (.array_json [some (.boolean_json true), none])
      (formatted_ostream.mk (lit "x") 0 32 false) rfl).1⟩

/-- C13, as first stated, fails on a sink with a non-zero field width: on the empty sink with
`width( 6 )`, the fill character a blank and the default adjustment, a `null_json` is
written as two blanks and `null`, and the inserter resets the width, so the second
serialization appends `null` alone; no one text is appended both times. -/
theorem stream_padded_first_time_only :
    (json_base.stream_formatted true (fun (_ : Nat) (_ : Unit) => ([] : std_string))
        .null_json (formatted_ostream.mk [] 6 32 false)).bytes = lit "  null"
      ∧ (json_base.stream_formatted true (fun (_ : Nat) (_ : Unit) => ([] : std_string))
          .null_json
          (json_base.stream_formatted true (fun (_ : Nat) (_ : Unit) => ([] : std_string))
            .null_json (formatted_ostream.mk [] 6 32 false))).bytes
          = lit "  null" ++ lit "null"
      ∧ ¬ ∃ t : std_string,
          (json_base.stream_formatted true (fun (_ : Nat) (_ : Unit) => ([] : std_string))
              .null_json (formatted_ostream.mk [] 6 32 false)).bytes = [] ++ t
            ∧ (json_base.stream_formatted true
                (fun (_ : Nat) (_ : Unit) => ([] : std_string)) .null_json
                (json_base.stream_formatted true
                  (fun (_ : Nat) (_ : Unit) => ([] : std_string))
                  .null_json (formatted_ostream.mk [] 6 32 false))).bytes
              = (json_base.stream_formatted true
                  (fun (_ : Nat) (_ : Unit) => ([] : std_string))
                  .null_json (formatted_ostream.mk [] 6 32 false)).bytes ++ t := by
  have h1 : (json_base.stream_formatted true (fun (_ : Nat) (_ : Unit) => ([] : std_string))
      .null_json (formatted_ostream.mk [] 6 32 false)).bytes = lit "  null" := by decide
  have h2 : (json_base.stream_formatted true (fun (_ : Nat) (_ : Unit) => ([] : std_string))
      .null_json
      (json_base.stream_formatted true (fun (_ : Nat) (_ : Unit) => ([] : std_string))
        .null_json (formatted_ostream.mk [] 6 32 false))).bytes
      = lit "  null" ++ lit "null" := by decide
  refine ⟨h1, h2, ?_⟩
  rintro ⟨t, ht1, ht2⟩
  rw [h2, h1] at ht2
  rw [h1, List.nil_append] at ht1
  have h3 := List.append_cancel_left ht2
  rw [← ht1] at h3
  revert h3
  decide

end examples
